import Mathlib

/-!
# enphase-gateway-exporter: credential manager and poll loop

A shallow embedding of `pkg/enphase/client.go`, `pkg/enphase/gateway.go` and the
scrape closure of `main.go`.

Conventions of the embedding.

* A Go `string` / `[]byte` is a Lean `String`; a Go `error` is the text of its
  `Error()` method, so `fmt.Errorf("p: %w", err)` is `"p: " ++ err`.
* Everything outside the repository (`net/http`, `encoding/json`, `net/url`) is a
  field of a `World` record: the functions of the repository are pure functions
  of their receiver and of the world they run in.
* `log.Println` output is not part of the state.
* `tokenMu` makes the read and the write of `token` atomic; each is one step here.
-/

namespace Enphase

deriving instance DecidableEq for Except

/-! ## Constants and wire types (client.go 17-30) -/

def loginURL : String := "https://enlighten.enphaseenergy.com/login/login.json"

def tokenURL : String := "http://entrez.enphaseenergy.com/tokens"

structure LoginPageResponse where
  SessionID : String
deriving DecidableEq, Repr

structure WebTokenRequest where
  SessionID : String
  Serial : String
  Username : String
deriving DecidableEq, Repr

/-- An outgoing `*http.Request`: method, URL, added headers, body. -/
structure Request where
  method : String
  url : String
  header : List (String × String)
  body : String
deriving DecidableEq, Repr

/-- What `httpc.Do(req)` followed by `io.ReadAll(resp.Body)` can produce. -/
inductive HttpResult where
  | doErr (err : String)
  | readErr (err : String)
  | response (statusCode : Nat) (body : String)
deriving DecidableEq, Repr

/-- The collaborators of one refresh cycle. `newRequestErr method url` is the
error of `http.NewRequestWithContext`, if any. -/
structure World where
  formEncode : List (String × String) → String
  newRequestErr : String → String → Option String
  roundTrip : Request → HttpResult
  unmarshalLogin : String → Except String LoginPageResponse
  jsonMarshal : WebTokenRequest → Except String String

/-! ## EnphaseTokenManager (client.go 32-65) -/

structure EnphaseTokenManager where
  username : String
  password : String
  serial : String
  token : String
deriving DecidableEq, Repr

def NewManager (username password serial : String) : EnphaseTokenManager :=
  { username := username, password := password, serial := serial, token := "" }

/-- The text of `fmt.Errorf("onverwachte status %d voor %s: %s", code, url, body)`. -/
def unexpectedStatus (code : Nat) (url body : String) : String :=
  "onverwachte status " ++ toString code ++ " voor " ++ url ++ ": " ++ body

/-- The request built by `FetchSessionID` (client.go 93-104). -/
def loginRequest (m : EnphaseTokenManager) (w : World) : Request :=
  { method := "POST"
    url := loginURL
    header := [("Content-Type", "application/x-www-form-urlencoded")]
    body := w.formEncode [("user[email]", m.username), ("user[password]", m.password)] }

/-- Embedding of `FetchSessionID` (client.go 90-131). -/
def FetchSessionID (m : EnphaseTokenManager) (w : World) : Except String String :=
  match w.newRequestErr "POST" loginURL with
  | some err => .error err
  | none =>
    match w.roundTrip (loginRequest m w) with
    | .doErr err => .error err
    | .readErr err => .error err
    | .response statusCode b =>
      if statusCode ≠ 200 then
        .error (unexpectedStatus statusCode loginURL b)
      else
        match w.unmarshalLogin b with
        | .error err => .error err
        | .ok p => .ok p.SessionID

/-- The payload built by `FetchToken` (client.go 137-142). -/
def tokenPayload (m : EnphaseTokenManager) (sessionID : String) : WebTokenRequest :=
  { SessionID := sessionID, Username := m.username, Serial := m.serial }

/-- The request built by `FetchToken` (client.go 149-154) around the marshalled payload. -/
def tokenRequest (b : String) : Request :=
  { method := "POST"
    url := tokenURL
    header := [("Content-Type", "application/json")]
    body := b }

/-- Embedding of `FetchToken` (client.go 133-176). -/
def FetchToken (m : EnphaseTokenManager) (w : World) (sessionID : String) :
    Except String String :=
  match w.jsonMarshal (tokenPayload m sessionID) with
  | .error err => .error err
  | .ok b =>
    match w.newRequestErr "POST" tokenURL with
    | some err => .error err
    | none =>
      match w.roundTrip (tokenRequest b) with
      | .doErr err => .error err
      | .readErr err => .error err
      | .response statusCode rb =>
        if statusCode ≠ 200 then
          .error (unexpectedStatus statusCode tokenURL b)
        else
          .ok rb

/-- Embedding of `Do` (client.go 178-196): the manager afterwards and the returned error. -/
def Do (m : EnphaseTokenManager) (w : World) : EnphaseTokenManager × Option String :=
  match FetchSessionID m w with
  | .error err => (m, some ("kon geen session ID halen: " ++ err))
  | .ok sessionID =>
    match FetchToken m w sessionID with
    | .error err => (m, some ("kon geen token halen: " ++ err))
    | .ok token => ({ m with token := token }, none)

/-- Embedding of `GetToken` (client.go 198-202). -/
def GetToken (m : EnphaseTokenManager) : String :=
  m.token

/-! ## Sample worlds -/

/-- The values of `json.Unmarshal(b, &LoginPageResponse{})` on the bodies used below:
an object without `session_id` leaves the field at its zero value and is no error. -/
def sampleUnmarshalLogin (b : String) : Except String LoginPageResponse :=
  if b = "\x7b\"session_id\":\"abc\"\x7d" then .ok { SessionID := "abc" }
  else if b = "\x7b\x7d" then .ok { SessionID := "" }
  else .error "invalid character"

/-- The value of `json.Marshal` on a payload whose strings need no escaping. -/
def sampleJsonMarshal (p : WebTokenRequest) : Except String String :=
  .ok ("\x7b\"session_id\":\"" ++ p.SessionID ++ "\",\"serial_num\":\"" ++ p.Serial
    ++ "\",\"username\":\"" ++ p.Username ++ "\"\x7d")

/-- A world whose login endpoint answers `login` and whose token endpoint answers `token`. -/
def sampleWorld (login token : HttpResult) : World :=
  { formEncode := fun kvs => String.intercalate "&" (kvs.map fun kv => kv.1 ++ "=" ++ kv.2)
    newRequestErr := fun _ _ => none
    roundTrip := fun req => if req.url = loginURL then login else token
    unmarshalLogin := sampleUnmarshalLogin
    jsonMarshal := sampleJsonMarshal }

/-! ## Gateway (gateway.go) -/

/-- The four `float64` fields of `ProductionResponse` (gateway.go 20-25). The values are
only copied, never computed with, so their type `F` is left open. -/
structure ProductionResponse (F : Type) where
  Wh : F
  Wh7d : F
  WhL : F
  W : F
deriving DecidableEq, Repr

structure Gateway where
  ip : String
deriving DecidableEq, Repr

def NewGateway (ip : String) : Gateway :=
  { ip := ip }

/-- The collaborators of one poll of the device. -/
structure GatewayWorld (F : Type) where
  newRequestErr : String → String → Option String
  roundTrip : Request → HttpResult
  unmarshalProduction : String → Except String (ProductionResponse F)

/-- The value of `fmt.Sprintf("https://%s/api/v1/production", gw.ip)` (gateway.go 48). -/
def productionURL (gw : Gateway) : String :=
  "https://" ++ gw.ip ++ "/api/v1/production"

/-- The request built by `ScrapeProduction` (gateway.go 50-55). -/
def productionRequest (gw : Gateway) (token : String) : Request :=
  { method := "GET"
    url := productionURL gw
    header := [("Authorization", "Bearer " ++ token)]
    body := "" }

/-- Embedding of `ScrapeProduction` (gateway.go 47-82). -/
def ScrapeProduction {F : Type} (gw : Gateway) (w : GatewayWorld F) (token : String) :
    Except String (ProductionResponse F) :=
  match w.newRequestErr "GET" (productionURL gw) with
  | some err => .error err
  | none =>
    match w.roundTrip (productionRequest gw token) with
    | .doErr err => .error err
    | .readErr err => .error err
    | .response statusCode b =>
      if statusCode ≠ 200 then
        .error (unexpectedStatus statusCode loginURL b)
      else
        match w.unmarshalProduction b with
        | .error err => .error err
        | .ok p => .ok p

/-! ## The scrape closure and its loop (main.go 68-89, 114-150) -/

/-- The values held by the four gauges registered in `main`. -/
structure Gauges (F : Type) where
  opgewektVandaag : F
  opgewekt7d : F
  opgewektLevensduur : F
  huidigeStroom : F
deriving DecidableEq, Repr

/-- One poll: the device world it meets and the value of `etm.GetToken()` at that time. -/
structure Poll (F : Type) where
  world : GatewayWorld F
  token : String

/-- Embedding of the `scrape` closure (main.go 114-130). -/
def scrape {F : Type} (gwc : Gateway) (g : Gauges F) (p : Poll F) : Gauges F :=
  match ScrapeProduction gwc p.world p.token with
  | .error _ => g
  | .ok production =>
    { opgewektVandaag := production.Wh
      opgewekt7d := production.Wh7d
      opgewektLevensduur := production.WhL
      huidigeStroom := production.W }

/-- The polls of the loop of main.go 140-149, one after the other. -/
def scrapeLoop {F : Type} (gwc : Gateway) (g : Gauges F) (polls : List (Poll F)) : Gauges F :=
  polls.foldl (scrape gwc) g

/-- The most recent successful reading of a sequence of poll outcomes, in the words of
the specification: the last outcome that is not a failure. -/
def lastReading {F : Type} :
    List (Except String (ProductionResponse F)) → Option (ProductionResponse F)
  | [] => none
  | o :: os =>
    match lastReading os with
    | some r => some r
    | none =>
      match o with
      | .ok r => some r
      | .error _ => none

/-- The gauge values the specification assigns to a reading. -/
def gaugesOfReading {F : Type} (r : ProductionResponse F) : Gauges F :=
  { opgewektVandaag := r.Wh
    opgewekt7d := r.Wh7d
    opgewektLevensduur := r.WhL
    huidigeStroom := r.W }

/-- A device world answering every request with `res`; bodies decode through `dec`. -/
def sampleGatewayWorld {F : Type} (res : HttpResult)
    (dec : String → Except String (ProductionResponse F)) : GatewayWorld F :=
  { newRequestErr := fun _ _ => none
    roundTrip := fun _ => res
    unmarshalProduction := dec }

/-- The value of `json.Unmarshal(b, &ProductionResponse{})` on the body of the
end-to-end scenario, with whole numbers standing for the `float64` values. -/
def sampleUnmarshalProduction (b : String) : Except String (ProductionResponse Nat) :=
  if b = "\x7b\"wattHoursToday\":100,\"wattHoursSevenDays\":500,\"wattHoursLifetime\":9000,\"wattsNow\":250\x7d"
  then .ok { Wh := 100, Wh7d := 500, WhL := 9000, W := 250 }
  else .error "invalid character"

/-! ## Start and WaitForToken as a transition system (client.go 67-88, 205-212)

`Start` runs in its own goroutine next to any number of `WaitForToken` calls. The
unbuffered channel `stopWaitingForToken` has no content of its own: a send completes
only together with a receive. A state records where each goroutine stands, which of
the channels `Start` selects on are ready, and two counters for the send statement of
client.go 80. An event is one atomic step of a goroutine or of the environment; a
`select` with several ready cases may take any of them, and takes none while no case
is ready. The refresh cycle run by a `select` case is one step; the world it meets is
part of the event. -/

/-- Where the goroutine running `Start` stands. -/
inductive StartPc where
  | selecting
  | sending
  | returned (err : Option String)
deriving DecidableEq, Repr

/-- Where a call of `WaitForToken` stands. -/
inductive WaitPc where
  | selecting
  | returned (err : Option String)
deriving DecidableEq, Repr

/-- One call of `WaitForToken`: whether its context is done, and where it stands. -/
structure Waiter where
  ctxDone : Bool
  pc : WaitPc
deriving DecidableEq, Repr

structure System where
  m : EnphaseTokenManager
  ctxDone : Bool
  runImmediately : Bool
  periodC : Bool
  start : StartPc
  sends : Nat
  receives : Nat
  waiters : List Waiter
deriving DecidableEq, Repr

inductive Event where
  | cancel
  | tick
  | startDone
  | startImmediately (w : World)
  | startPeriod (w : World)
  | deliver (i : Nat)
  | callWait
  | waitCtxDone (i : Nat)
  | waitTimeout (i : Nat)

/-- The error of `WaitForToken` (client.go 208). -/
def waitTimeoutError : String := "wachten voor de token duurde te lang"

/-- The state in which `Start` has created its two timers and no `WaitForToken` call
has been made: `time.After(0)` holds its value, the ticker has not ticked. -/
def initial (m : EnphaseTokenManager) : System :=
  { m := m, ctxDone := false, runImmediately := true, periodC := false
    start := .selecting, sends := 0, receives := 0, waiters := [] }

/-- One step of the system; `none` when the event is not enabled. -/
def step (s : System) : Event → Option System
  | .cancel => some { s with ctxDone := true }
  | .tick => some { s with periodC := true }
  | .startDone =>
    if s.start = .selecting ∧ s.ctxDone = true then
      some { s with start := .returned none }
    else none
  | .startImmediately w =>
    if s.start = .selecting ∧ s.runImmediately = true then
      match (Do s.m w).2 with
      | some err =>
        some { s with runImmediately := false, m := (Do s.m w).1, start := .returned (some err) }
      | none =>
        some { s with runImmediately := false, m := (Do s.m w).1, start := .sending
                      sends := s.sends + 1 }
    else none
  | .startPeriod w =>
    if s.start = .selecting ∧ s.periodC = true then
      some { s with periodC := false, m := (Do s.m w).1 }
    else none
  | .deliver i =>
    match s.waiters[i]? with
    | some wt =>
      if s.start = .sending ∧ wt.pc = .selecting then
        some { s with start := .selecting, receives := s.receives + 1
                      waiters := s.waiters.set i { wt with pc := .returned none } }
      else none
    | none => none
  | .callWait => some { s with waiters := s.waiters ++ [{ ctxDone := false, pc := .selecting }] }
  | .waitCtxDone i =>
    match s.waiters[i]? with
    | some wt => some { s with waiters := s.waiters.set i { wt with ctxDone := true } }
    | none => none
  | .waitTimeout i =>
    match s.waiters[i]? with
    | some wt =>
      if wt.pc = .selecting ∧ wt.ctxDone = true then
        some { s with waiters := s.waiters.set i { wt with pc := .returned (some waitTimeoutError) } }
      else none
    | none => none

/-- An execution: the events taken one after the other; `none` when one is not enabled. -/
def run (s : System) : List Event → Option System
  | [] => some s
  | e :: es =>
    match step s e with
    | some s' => run s' es
    | none => none

/-- Whether an event is a refresh cycle of `Start`. -/
def Event.isCycle : Event → Bool
  | .startImmediately _ => true
  | .startPeriod _ => true
  | _ => false

/-- Whether an event is the immediate-run case of the `select` of `Start`. -/
def Event.isImmediately : Event → Bool
  | .startImmediately _ => true
  | _ => false

/-- Both remote calls of a refresh cycle succeed, the token endpoint answering with
body `rb`: each request can be built, the login endpoint answers 200 with a body
that decodes, the payload marshals, and the token endpoint answers 200. -/
def CycleSucceeds (m : EnphaseTokenManager) (w : World) (rb : String) : Prop :=
  ∃ lb p b,
    w.newRequestErr "POST" loginURL = none ∧
    w.roundTrip (loginRequest m w) = .response 200 lb ∧
    w.unmarshalLogin lb = .ok p ∧
    w.jsonMarshal (tokenPayload m p.SessionID) = .ok b ∧
    w.newRequestErr "POST" tokenURL = none ∧
    w.roundTrip (tokenRequest b) = .response 200 rb

/-- A manager holding a credential from an earlier cycle. -/
def sampleManager : EnphaseTokenManager :=
  { username := "u", password := "p", serial := "s", token := "old" }

/-- The world of the end-to-end scenario: session `abc`, token body `tok-123`. -/
def worldOk : World :=
  sampleWorld (.response 200 "\x7b\"session_id\":\"abc\"\x7d") (.response 200 "tok-123")

/-- A world whose login answer is a JSON object without a `session_id` field. -/
def worldNoSessionID : World :=
  sampleWorld (.response 200 "\x7b\x7d") (.response 200 "tok-123")

/-- A world whose login endpoint refuses with status 403 and body `nope`. -/
def worldLoginRefused : World :=
  sampleWorld (.response 403 "nope") (.response 200 "tok-123")

/-- A world whose token endpoint refuses with status 500 and body `denied`. -/
def worldTokenRefused : World :=
  sampleWorld (.response 200 "\x7b\"session_id\":\"abc\"\x7d") (.response 500 "denied")

/-- The body of the end-to-end telemetry scenario. -/
def sampleProductionBody : String :=
  "\x7b\"wattHoursToday\":100,\"wattHoursSevenDays\":500,\"wattHoursLifetime\":9000,\"wattsNow\":250\x7d"

/-- A poll the device answers with the scenario's reading. -/
def pollOk : Poll Nat :=
  { world := sampleGatewayWorld (.response 200 sampleProductionBody) sampleUnmarshalProduction
    token := "tok-123" }

/-- A poll the device answers with status 500 and body `oops`. -/
def pollRefused : Poll Nat :=
  { world := sampleGatewayWorld (.response 500 "oops") sampleUnmarshalProduction
    token := "tok-123" }

/-- The four gauges as `prometheus.NewGauge` creates them. -/
def sampleGauges : Gauges Nat :=
  { opgewektVandaag := 0, opgewekt7d := 0, opgewektLevensduur := 0, huidigeStroom := 0 }

/-- The invariant behind the one-shot signal, for a state reached after `c` firings of
the immediate-run case. -/
def SendInv (s : System) (c : Nat) : Prop :=
  c ≤ 1 ∧ s.sends ≤ c ∧ (s.runImmediately = true → c = 0) ∧ s.receives ≤ s.sends ∧
    (s.start = .sending → s.receives < s.sends)

/-- The manager `main` creates, before any cycle. -/
def freshManager : EnphaseTokenManager :=
  NewManager "u" "p" "s"

/-- A world in which the context is already cancelled: `httpc.Do` fails. -/
def worldCancelled : World :=
  sampleWorld (.doErr "Post \"https://enlighten.enphaseenergy.com/login/login.json\": context canceled")
    (.doErr "Post \"http://entrez.enphaseenergy.com/tokens\": context canceled")

/-- A world whose token endpoint answers status 200 with an empty body. -/
def worldEmptyToken : World :=
  sampleWorld (.response 200 "\x7b\"session_id\":\"abc\"\x7d") (.response 200 "")

/-- The inaugural cycle succeeds and one `WaitForToken` call receives the signal. -/
def traceSignalConsumed : List Event :=
  [.startImmediately worldOk, .callWait, .deliver 0]

/-- The state `traceSignalConsumed` ends in. -/
def stateSignalConsumed : System :=
  { m := { username := "u", password := "p", serial := "s", token := "tok-123" }
    ctxDone := false, runImmediately := false, periodC := false
    start := .selecting, sends := 1, receives := 1
    waiters := [{ ctxDone := false, pc := .returned none }] }

/-- The state `stateSignalConsumed` after a tick of the ticker. -/
def stateTicked : System :=
  { stateSignalConsumed with periodC := true }

/-- Two further calls after the signal was consumed: the first with its context done. -/
def traceLateCalls : List Event :=
  [.callWait, .waitCtxDone 1, .callWait]

/-- The state `traceLateCalls` leads to from `stateSignalConsumed`. -/
def stateLateCalls : System :=
  { stateSignalConsumed with
    waiters := [{ ctxDone := false, pc := .returned none }, { ctxDone := true, pc := .selecting },
      { ctxDone := false, pc := .selecting }] }

/-- No refresh cycle has succeeded yet and nothing was sent: the manager is still `m0`,
`Start` is not at its send, and every call has either not returned or timed out. -/
def Quiet (m0 : EnphaseTokenManager) (s : System) : Prop :=
  s.m = m0 ∧ s.sends = 0 ∧ s.start ≠ .sending ∧
    ∀ wt ∈ s.waiters, wt.pc = .selecting ∨ wt.pc = .returned (some waitTimeoutError)

/-- The manager `m` with its credential replaced by `acc`, if any. -/
def withToken (m : EnphaseTokenManager) : Option String → EnphaseTokenManager
  | none => m
  | some t => { m with token := t }

/-- The world a refresh-cycle event of `Start` runs in; `none` for any other event. -/
def Event.cycleWorld : Event → Option World
  | .startImmediately w => some w
  | .startPeriod w => some w
  | _ => none

/-- None of the refresh cycles among the events has both of its remote calls succeed. -/
def AllFail (m : EnphaseTokenManager) (es : List Event) : Prop :=
  ∀ e ∈ es, ∀ w, e.cycleWorld = some w → ¬ ∃ rb, CycleSucceeds m w rb

/-- The events contain a refresh cycle whose two remote calls succeed, and in the most
recent such cycle the token endpoint answers with body `rb`. -/
def LastBody (m : EnphaseTokenManager) (es : List Event) (rb : String) : Prop :=
  ∃ mid e rest w, es = mid ++ e :: rest ∧ e.cycleWorld = some w ∧ CycleSucceeds m w rb ∧
    AllFail m rest

/-- What is known of a state reached through the events `done`: the manager differs
from `m` in its credential only, and if a send was executed then `done` contains an
immediate-run cycle whose remote calls succeeded, and the credential is the token
endpoint's body of the most recent successful cycle from that one on. -/
def CredInv (m : EnphaseTokenManager) (done : List Event) (s : System) : Prop :=
  (∃ acc, s.m = withToken m acc) ∧
    (1 ≤ s.sends → ∃ pre w0 post,
      done = pre ++ Event.startImmediately w0 :: post ∧ (∃ rb0, CycleSucceeds m w0 rb0) ∧
      ∃ rb, LastBody m (Event.startImmediately w0 :: post) rb ∧ GetToken s.m = rb)

/-- What is known of a state reached through the events `done`: the manager differs
from `m` in its credential only, and if `Start` returned an error then `done` contains
an immediate-run cycle that returned this error. -/
def ErrInv (m : EnphaseTokenManager) (done : List Event) (s : System) : Prop :=
  (∃ acc, s.m = withToken m acc) ∧
    (∀ err, s.start = .returned (some err) → ∃ pre w post,
      done = pre ++ Event.startImmediately w :: post ∧ (Do m w).2 = some err)

/-- The immediate run is spent and `Start` is in its loop or has returned nil, the
latter only on a cancelled context. -/
def Steady (s : System) : Prop :=
  s.runImmediately = false ∧ (s.start = .selecting ∨ s.start = .returned none) ∧
    (s.start = .returned none → s.ctxDone = true)

/-- The context is cancelled before `Start` reaches its first `select`, which then
takes the immediate-run case. -/
def traceCancelledFirst : List Event :=
  [.cancel, .startImmediately worldCancelled]

/-- The state `traceCancelledFirst` ends in. -/
def stateCancelledFirst : System :=
  { m := freshManager, ctxDone := true, runImmediately := false, periodC := false
    start := .returned (some
      "kon geen session ID halen: Post \"https://enlighten.enphaseenergy.com/login/login.json\": context canceled")
    sends := 0, receives := 0, waiters := [] }

/-- The signal was consumed, then the context is cancelled. -/
def stateCancelledLater : System :=
  { stateSignalConsumed with ctxDone := true }

/-- The state `stateCancelledLater` after a failed periodic cycle and the cancellation
case: `Start` has returned nil. -/
def stateCancelledReturned : System :=
  { stateCancelledLater with start := .returned none }

/-- A call times out, then the inaugural cycle fails, then another call is made. -/
def traceInauguralFails : List Event :=
  [.callWait, .waitCtxDone 0, .waitTimeout 0, .startImmediately worldTokenRefused, .callWait]

/-- The state `traceInauguralFails` ends in. -/
def stateInauguralFails : System :=
  { m := freshManager, ctxDone := false, runImmediately := false, periodC := false
    start := .returned (some
      "kon geen token halen: onverwachte status 500 voor http://entrez.enphaseenergy.com/tokens: \x7b\"session_id\":\"abc\",\"serial_num\":\"s\",\"username\":\"u\"\x7d")
    sends := 0, receives := 0
    waiters := [{ ctxDone := true, pc := .returned (some "wachten voor de token duurde te lang") },
      { ctxDone := false, pc := .selecting }] }

/-- The inaugural cycle stores an empty token body and one call receives the signal. -/
def traceEmptyToken : List Event :=
  [.startImmediately worldEmptyToken, .callWait, .deliver 0]

/-- A world whose token endpoint answers with a newer token body. -/
def worldRenewed : World :=
  sampleWorld (.response 200 "\x7b\"session_id\":\"abc\"\x7d") (.response 200 "tok-456")

/-- The signal is consumed, then a periodic cycle fails and a later one succeeds. -/
def traceRenewed : List Event :=
  traceSignalConsumed ++ [.tick, .startPeriod worldTokenRefused, .tick, .startPeriod worldRenewed]

/-- The state `traceRenewed` ends in. -/
def stateRenewed : System :=
  { stateSignalConsumed with
    m := { username := "u", password := "p", serial := "s", token := "tok-456" } }

/-! ## The refresh cycle -/

theorem FetchSessionID_ok_iff (m : EnphaseTokenManager) (w : World) (sid : String) :
    FetchSessionID m w = .ok sid ↔
      ∃ lb p, w.newRequestErr "POST" loginURL = none ∧
        w.roundTrip (loginRequest m w) = .response 200 lb ∧
        w.unmarshalLogin lb = .ok p ∧ p.SessionID = sid := by
  unfold FetchSessionID
  constructor
  · intro h
    split at h
    · cases h
    · rename_i hreq
      split at h
      · cases h
      · cases h
      · rename_i code b hrt
        split at h
        · cases h
        · rename_i hcode
          split at h
          · cases h
          · rename_i p hp
            have hc : code = 200 := by simpa using hcode
            subst hc
            injection h with h
            exact ⟨b, p, hreq, hrt, hp, h⟩
  · rintro ⟨lb, p, h1, h2, h3, h4⟩
    simp [h1, h2, h3, h4]

theorem FetchToken_ok_iff (m : EnphaseTokenManager) (w : World) (sid rb : String) :
    FetchToken m w sid = .ok rb ↔
      ∃ b, w.jsonMarshal (tokenPayload m sid) = .ok b ∧
        w.newRequestErr "POST" tokenURL = none ∧
        w.roundTrip (tokenRequest b) = .response 200 rb := by
  unfold FetchToken
  constructor
  · intro h
    split at h
    · cases h
    · rename_i b hb
      split at h
      · cases h
      · rename_i hreq
        split at h
        · cases h
        · cases h
        · rename_i code rb2 hrt
          split at h
          · cases h
          · rename_i hcode
            have hc : code = 200 := by simpa using hcode
            subst hc
            injection h with h
            subst h
            exact ⟨b, hb, hreq, hrt⟩
  · rintro ⟨b, h1, h2, h3⟩
    simp [h1, h2, h3]

theorem Do_ok_iff (m : EnphaseTokenManager) (w : World) :
    (Do m w).2 = none ↔ ∃ rb, CycleSucceeds m w rb := by
  unfold Do CycleSucceeds
  constructor
  · intro h
    split at h
    · cases h
    · rename_i sid hsid
      split at h
      · cases h
      · rename_i tok htok
        obtain ⟨lb, p, h1, h2, h3, h4⟩ := (FetchSessionID_ok_iff m w sid).1 hsid
        obtain ⟨b, h5, h6, h7⟩ := (FetchToken_ok_iff m w sid tok).1 htok
        subst h4
        exact ⟨tok, lb, p, b, h1, h2, h3, h5, h6, h7⟩
  · rintro ⟨rb, lb, p, b, h1, h2, h3, h5, h6, h7⟩
    have hs : FetchSessionID m w = .ok p.SessionID :=
      (FetchSessionID_ok_iff m w _).2 ⟨lb, p, h1, h2, h3, rfl⟩
    have ht : FetchToken m w p.SessionID = .ok rb :=
      (FetchToken_ok_iff m w _ rb).2 ⟨b, h5, h6, h7⟩
    simp [hs, ht]


theorem Do_error_unchanged (m : EnphaseTokenManager) (w : World) (h : (Do m w).2 ≠ none) :
    (Do m w).1 = m := by
  unfold Do at h ⊢
  cases hs : FetchSessionID m w with
  | error e => rfl
  | ok sid =>
    cases ht : FetchToken m w sid with
    | error e => simp [ht]
    | ok tok => simp [hs, ht] at h

theorem Do_token_irrelevant (m : EnphaseTokenManager) (t : String) (w : World) :
    (Do { m with token := t } w).2 = (Do m w).2 ∧
      ((Do m w).2 = none → (Do { m with token := t } w).1 = (Do m w).1) := by
  have h1 : FetchSessionID { m with token := t } w = FetchSessionID m w := rfl
  have h2 : ∀ sid, FetchToken { m with token := t } w sid = FetchToken m w sid := fun _ => rfl
  unfold Do
  rw [h1]
  cases hs : FetchSessionID m w with
  | error e => simp
  | ok sid =>
    simp only [h2]
    cases ht : FetchToken m w sid with
    | error e => simp
    | ok tok => simp

/-- C1. When the login call and the token call of a refresh cycle both succeed, the
cycle returns no error and `GetToken` afterwards returns the body of the token
endpoint's response unchanged, whatever credential was stored before. -/
theorem Do_stores_token_body (m : EnphaseTokenManager) (w : World) (rb : String)
    (h : CycleSucceeds m w rb) :
    (Do m w).2 = none ∧ GetToken (Do m w).1 = rb := by
  obtain ⟨lb, p, b, h1, h2, h3, h5, h6, h7⟩ := h
  have hs : FetchSessionID m w = .ok p.SessionID :=
    (FetchSessionID_ok_iff m w _).2 ⟨lb, p, h1, h2, h3, rfl⟩
  have ht : FetchToken m w p.SessionID = .ok rb :=
    (FetchToken_ok_iff m w _ rb).2 ⟨b, h5, h6, h7⟩
  simp [Do, GetToken, hs, ht]

theorem worldOk_succeeds : CycleSucceeds sampleManager worldOk "tok-123" :=
  ⟨"\x7b\"session_id\":\"abc\"\x7d", { SessionID := "abc" },
    "\x7b\"session_id\":\"abc\",\"serial_num\":\"s\",\"username\":\"u\"\x7d",
    by decide, by decide, by decide, by decide, by decide, by decide⟩

theorem Do_stores_token_body_witness :
    CycleSucceeds sampleManager worldOk "tok-123" ∧
      ((Do sampleManager worldOk).2 = none ∧ GetToken (Do sampleManager worldOk).1 = "tok-123") :=
  ⟨worldOk_succeeds, Do_stores_token_body sampleManager worldOk "tok-123" worldOk_succeeds⟩

/-- C2, as the claim states it, fails: a login answer of status 200 whose JSON body has
no `session_id` field is no error; the cycle goes on with the empty session
identifier, and stores the token endpoint's body. -/
theorem Do_accepts_login_without_session_id :
    worldNoSessionID.roundTrip (loginRequest sampleManager worldNoSessionID)
        = .response 200 "\x7b\x7d" ∧
      FetchSessionID sampleManager worldNoSessionID = .ok "" ∧
      (Do sampleManager worldNoSessionID).2 = none ∧
      GetToken (Do sampleManager worldNoSessionID).1 = "tok-123" := by
  decide

/-- C2, amended. A refresh cycle returns no error if and only if both requests can be
built, the login endpoint answers status 200 with a body that `json.Unmarshal`
accepts (its session identifier may be empty), the payload marshals, and the token
endpoint answers status 200. A login answer that is not 200 or does not decode, and
a token answer that is not 200, make the cycle return an error; and a cycle that
returns an error leaves the manager, its credential included, as it was. -/
theorem Do_no_error_iff (m : EnphaseTokenManager) (w : World) :
    ((Do m w).2 = none ↔ ∃ rb, CycleSucceeds m w rb) ∧
      (∀ code lb, w.roundTrip (loginRequest m w) = .response code lb → code ≠ 200 →
        (Do m w).2 ≠ none) ∧
      (∀ lb err, w.roundTrip (loginRequest m w) = .response 200 lb →
        w.unmarshalLogin lb = .error err → (Do m w).2 ≠ none) ∧
      (∀ sid b code rb, FetchSessionID m w = .ok sid →
        w.jsonMarshal (tokenPayload m sid) = .ok b →
        w.roundTrip (tokenRequest b) = .response code rb → code ≠ 200 →
        (Do m w).2 ≠ none) ∧
      ((Do m w).2 ≠ none → (Do m w).1 = m ∧ GetToken (Do m w).1 = GetToken m) := by
  refine ⟨Do_ok_iff m w, ?_, ?_, ?_, ?_⟩
  · intro code lb hrt hcode hok
    obtain ⟨rb, lb2, p, b, h1, h2, h3, h5, h6, h7⟩ := (Do_ok_iff m w).1 hok
    rw [hrt] at h2
    injection h2 with hc _
    exact hcode hc
  · intro lb err hrt herr hok
    obtain ⟨rb, lb2, p, b, h1, h2, h3, h5, h6, h7⟩ := (Do_ok_iff m w).1 hok
    rw [hrt] at h2
    injection h2 with _ hb
    subst hb
    rw [herr] at h3
    cases h3
  · intro sid b code rb hsid hb hrt hcode hok
    obtain ⟨rb2, lb2, p, b2, h1, h2, h3, h5, h6, h7⟩ := (Do_ok_iff m w).1 hok
    have hs : FetchSessionID m w = .ok p.SessionID :=
      (FetchSessionID_ok_iff m w _).2 ⟨lb2, p, h1, h2, h3, rfl⟩
    rw [hsid] at hs
    injection hs with hs
    subst hs
    rw [hb] at h5
    injection h5 with h5
    subst h5
    rw [hrt] at h7
    injection h7 with hc _
    exact hcode hc
  · intro h
    have := Do_error_unchanged m w h
    exact ⟨this, by rw [this]⟩

theorem Do_no_error_iff_witness :
    (Do sampleManager worldTokenRefused).2 ≠ none ∧
      (Do sampleManager worldTokenRefused).1 = sampleManager ∧
      GetToken (Do sampleManager worldTokenRefused).1 = GetToken sampleManager :=
  ⟨by decide, (Do_no_error_iff sampleManager worldTokenRefused).2.2.2.2 (by decide)⟩

/-! ## The polls -/

theorem scrapeLoop_cons {F : Type} (gwc : Gateway) (g : Gauges F) (p : Poll F)
    (polls : List (Poll F)) :
    scrapeLoop gwc g (p :: polls) = scrapeLoop gwc (scrape gwc g p) polls := rfl

theorem scrapeLoop_lastReading {F : Type} (gwc : Gateway) (polls : List (Poll F))
    (g : Gauges F) :
    scrapeLoop gwc g polls =
      match lastReading (polls.map fun p => ScrapeProduction gwc p.world p.token) with
      | some r => gaugesOfReading r
      | none => g := by
  induction polls generalizing g with
  | nil => rfl
  | cons p ps ih =>
    rw [scrapeLoop_cons, ih]
    simp only [List.map_cons, lastReading]
    cases hl : lastReading (ps.map fun p => ScrapeProduction gwc p.world p.token) with
    | some r => rfl
    | none =>
      cases hp : ScrapeProduction gwc p.world p.token with
      | error e => simp [scrape, hp]
      | ok r => simp [scrape, hp, gaugesOfReading]

/-- C9. After any finite sequence of polls the four gauges hold the fields of the most
recent successful reading (`wattHoursToday`, `wattHoursSevenDays`,
`wattHoursLifetime`, `wattsNow`, in the order today, seven days, lifetime, power),
and their initial values if no poll succeeded; a failed poll changes no gauge, and
after a failed poll followed by a successful one the gauges hold the values of the
successful one. -/
theorem gauges_hold_last_successful_reading {F : Type} (gwc : Gateway) (g : Gauges F)
    (polls : List (Poll F)) :
    (scrapeLoop gwc g polls =
      match lastReading (polls.map fun p => ScrapeProduction gwc p.world p.token) with
      | some r =>
        { opgewektVandaag := r.Wh, opgewekt7d := r.Wh7d, opgewektLevensduur := r.WhL
          huidigeStroom := r.W }
      | none => g) ∧
      (∀ p e, ScrapeProduction gwc p.world p.token = .error e → scrape gwc g p = g) ∧
      (∀ p q e r, ScrapeProduction gwc p.world p.token = .error e →
        ScrapeProduction gwc q.world q.token = .ok r →
        scrapeLoop gwc g [p, q] =
          { opgewektVandaag := r.Wh, opgewekt7d := r.Wh7d, opgewektLevensduur := r.WhL
            huidigeStroom := r.W }) := by
  refine ⟨?_, ?_, ?_⟩
  · rw [scrapeLoop_lastReading]
    cases lastReading (polls.map fun p => ScrapeProduction gwc p.world p.token) <;> rfl
  · intro p e hp
    simp [scrape, hp]
  · intro p q e r hp hq
    simp [scrapeLoop, scrape, hp, hq]

theorem gauges_hold_last_successful_reading_witness :
    ScrapeProduction (NewGateway "192.168.1.2") pollRefused.world pollRefused.token
        = .error "onverwachte status 500 voor https://enlighten.enphaseenergy.com/login/login.json: oops" ∧
      ScrapeProduction (NewGateway "192.168.1.2") pollOk.world pollOk.token
        = .ok { Wh := 100, Wh7d := 500, WhL := 9000, W := 250 } ∧
      scrapeLoop (NewGateway "192.168.1.2") sampleGauges [pollRefused, pollOk] =
        { opgewektVandaag := 100, opgewekt7d := 500, opgewektLevensduur := 9000
          huidigeStroom := 250 } :=
  ⟨by decide, by decide,
    (gauges_hold_last_successful_reading (NewGateway "192.168.1.2") sampleGauges []).2.2
      pollRefused pollOk
      "onverwachte status 500 voor https://enlighten.enphaseenergy.com/login/login.json: oops"
      { Wh := 100, Wh7d := 500, WhL := 9000, W := 250 } (by decide) (by decide)⟩

/-- C10. The error texts at the failing inputs. A device at 192.168.1.2 answering status
500 makes `ScrapeProduction` report the login URL, not the device URL it called; a
token endpoint answering status 500 with body `denied` makes `FetchToken` report the
request payload it sent, not the body it received. `FetchSessionID` reports its own
URL and the body received, and `Do` puts a different text before the error of each
of its two steps. -/
theorem unexpected_status_text_at_failing_inputs :
    (productionRequest (NewGateway "192.168.1.2") "tok-123").url
        = "https://192.168.1.2/api/v1/production" ∧
      ScrapeProduction (NewGateway "192.168.1.2") pollRefused.world pollRefused.token
        = .error "onverwachte status 500 voor https://enlighten.enphaseenergy.com/login/login.json: oops" ∧
      worldTokenRefused.roundTrip
          (tokenRequest "\x7b\"session_id\":\"abc\",\"serial_num\":\"s\",\"username\":\"u\"\x7d")
        = .response 500 "denied" ∧
      FetchToken sampleManager worldTokenRefused "abc"
        = .error "onverwachte status 500 voor http://entrez.enphaseenergy.com/tokens: \x7b\"session_id\":\"abc\",\"serial_num\":\"s\",\"username\":\"u\"\x7d" ∧
      FetchSessionID sampleManager worldLoginRefused
        = .error "onverwachte status 403 voor https://enlighten.enphaseenergy.com/login/login.json: nope" ∧
      (Do sampleManager worldLoginRefused).2
        = some "kon geen session ID halen: onverwachte status 403 voor https://enlighten.enphaseenergy.com/login/login.json: nope" ∧
      (Do sampleManager worldTokenRefused).2
        = some "kon geen token halen: onverwachte status 500 voor http://entrez.enphaseenergy.com/tokens: \x7b\"session_id\":\"abc\",\"serial_num\":\"s\",\"username\":\"u\"\x7d" := by
  decide

/-! ## The one-shot signal -/

theorem SendInv_step (s s' : System) (c : Nat) (e : Event) (h : SendInv s c)
    (hs : step s e = some s') :
    SendInv s' (c + if e.isImmediately = true then 1 else 0) := by
  obtain ⟨h1, h2, h3, h4, h5⟩ := h
  cases e with
  | cancel =>
    simp only [step, Option.some.injEq] at hs
    subst hs
    exact ⟨h1, h2, h3, h4, h5⟩
  | tick =>
    simp only [step, Option.some.injEq] at hs
    subst hs
    exact ⟨h1, h2, h3, h4, h5⟩
  | startDone =>
    simp only [step] at hs
    split at hs
    · simp only [Option.some.injEq] at hs
      subst hs
      exact ⟨h1, h2, h3, h4, by simp⟩
    · cases hs
  | startImmediately w =>
    simp only [step] at hs
    split at hs
    · rename_i hg
      have hc : c = 0 := h3 hg.2
      subst hc
      split at hs
      · simp only [Option.some.injEq] at hs
        subst hs
        refine ⟨by simp [Event.isImmediately], ?_, by simp, h4, by simp⟩
        show s.sends ≤ _
        omega
      · simp only [Option.some.injEq] at hs
        subst hs
        refine ⟨by simp [Event.isImmediately], ?_, by simp, ?_, ?_⟩
        · have h0 : s.sends = 0 := by omega
          show s.sends + 1 ≤ _
          simp [Event.isImmediately, h0]
        · show s.receives ≤ s.sends + 1
          omega
        · intro _
          show s.receives < s.sends + 1
          omega
    · cases hs
  | startPeriod w =>
    simp only [step] at hs
    split at hs
    · rename_i hg
      simp only [Option.some.injEq] at hs
      subst hs
      exact ⟨h1, h2, h3, h4, fun hh => h5 hh⟩
    · cases hs
  | deliver i =>
    simp only [step] at hs
    split at hs
    · split at hs
      · rename_i hg
        simp only [Option.some.injEq] at hs
        subst hs
        have := h5 hg.1
        refine ⟨h1, h2, h3, ?_, by simp⟩
        show s.receives + 1 ≤ s.sends
        omega
      · cases hs
    · cases hs
  | callWait =>
    simp only [step, Option.some.injEq] at hs
    subst hs
    exact ⟨h1, h2, h3, h4, h5⟩
  | waitCtxDone i =>
    simp only [step] at hs
    split at hs
    · simp only [Option.some.injEq] at hs
      subst hs
      exact ⟨h1, h2, h3, h4, h5⟩
    · cases hs
  | waitTimeout i =>
    simp only [step] at hs
    split at hs
    · split at hs
      · simp only [Option.some.injEq] at hs
        subst hs
        exact ⟨h1, h2, h3, h4, h5⟩
      · cases hs
    · cases hs

theorem SendInv_run (evs : List Event) (s s' : System) (c : Nat) (h : SendInv s c)
    (hr : run s evs = some s') :
    SendInv s' (c + evs.countP Event.isImmediately) := by
  induction evs generalizing s c with
  | nil =>
    simp only [run, Option.some.injEq] at hr
    subst hr
    simpa using h
  | cons e es ih =>
    simp only [run] at hr
    split at hr
    · rename_i s1 hs1
      have := ih s1 _ (SendInv_step s s1 c e h hs1) hr
      rw [List.countP_cons]
      have heq : c + (List.countP Event.isImmediately es + if e.isImmediately = true then 1 else 0)
          = c + (if e.isImmediately = true then 1 else 0) + List.countP Event.isImmediately es := by
        omega
      rw [heq]
      exact this
    · cases hr

theorem SendInv_initial (m : EnphaseTokenManager) : SendInv (initial m) 0 := by
  simp [SendInv, initial]

/-- C5. In every execution the send on `stopWaitingForToken` is executed at most once
and completes at most once: the immediate-run case fires at most once, every send
belongs to a firing of that case, and the periodic case never sends. -/
theorem ready_signal_sent_at_most_once (m : EnphaseTokenManager) (evs : List Event)
    (s : System) (hr : run (initial m) evs = some s) :
    s.sends ≤ 1 ∧ s.receives ≤ 1 ∧ evs.countP Event.isImmediately ≤ 1 ∧
      s.sends ≤ evs.countP Event.isImmediately ∧
      (∀ w s', step s (.startPeriod w) = some s' → s'.sends = s.sends) := by
  have h := SendInv_run evs (initial m) s 0 (SendInv_initial m) hr
  obtain ⟨h1, h2, _, h4, _⟩ := h
  simp only [Nat.zero_add] at h1 h2
  refine ⟨by omega, by omega, h1, h2, ?_⟩
  intro w s' hs
  simp only [step] at hs
  split at hs
  · simp only [Option.some.injEq] at hs
    subst hs
    rfl
  · cases hs

theorem ready_signal_sent_at_most_once_witness :
    run (initial freshManager) traceSignalConsumed = some stateSignalConsumed ∧
      stateSignalConsumed.sends ≤ 1 ∧ stateSignalConsumed.receives ≤ 1 ∧
      traceSignalConsumed.countP Event.isImmediately ≤ 1 ∧
      stateSignalConsumed.sends ≤ traceSignalConsumed.countP Event.isImmediately ∧
      (∀ w s', step stateSignalConsumed (.startPeriod w) = some s' →
        s'.sends = stateSignalConsumed.sends) :=
  ⟨by decide,
    ready_signal_sent_at_most_once freshManager traceSignalConsumed stateSignalConsumed
      (by decide)⟩

/-- C4. A periodic refresh cycle that fails, at either step, leaves `Start` in its loop
and the stored credential as it was: `Do` writes the credential only when it returns
no error. -/
theorem failed_periodic_cycle_keeps_credential (s : System) (w : World)
    (hsel : s.start = .selecting) (htick : s.periodC = true) (hfail : (Do s.m w).2 ≠ none) :
    ∃ s', step s (.startPeriod w) = some s' ∧ s'.start = .selecting ∧
      GetToken s'.m = GetToken s.m ∧ s'.m = s.m := by
  have hm := Do_error_unchanged s.m w hfail
  refine ⟨{ s with periodC := false, m := (Do s.m w).1 }, ?_, hsel, ?_, hm⟩
  · simp [step, hsel, htick]
  · show GetToken (Do s.m w).1 = GetToken s.m
    rw [hm]

theorem failed_periodic_cycle_keeps_credential_witness :
    (Do stateTicked.m worldTokenRefused).2 ≠ none ∧
      ∃ s', step stateTicked (.startPeriod worldTokenRefused) = some s' ∧
        s'.start = .selecting ∧ GetToken s'.m = GetToken stateTicked.m ∧
        s'.m = stateTicked.m :=
  ⟨by decide,
    failed_periodic_cycle_keeps_credential stateTicked worldTokenRefused (by decide)
      (by decide) (by decide)⟩

/-! ## WaitForToken after the signal -/

theorem success_of_step (s s' : System) (e : Event) (hs : step s e = some s')
    (hn : s.start ≠ .sending) (i : Nat) (wt' : Waiter) (hw : s'.waiters[i]? = some wt')
    (hok : wt'.pc = .returned none) :
    ∃ wt, s.waiters[i]? = some wt ∧ wt.pc = .returned none := by
  cases e with
  | cancel =>
    simp only [step, Option.some.injEq] at hs
    subst hs
    exact ⟨wt', hw, hok⟩
  | tick =>
    simp only [step, Option.some.injEq] at hs
    subst hs
    exact ⟨wt', hw, hok⟩
  | startDone =>
    simp only [step] at hs
    split at hs
    · simp only [Option.some.injEq] at hs
      subst hs
      exact ⟨wt', hw, hok⟩
    · cases hs
  | startImmediately w =>
    simp only [step] at hs
    split at hs
    · split at hs
      · simp only [Option.some.injEq] at hs
        subst hs
        exact ⟨wt', hw, hok⟩
      · simp only [Option.some.injEq] at hs
        subst hs
        exact ⟨wt', hw, hok⟩
    · cases hs
  | startPeriod w =>
    simp only [step] at hs
    split at hs
    · simp only [Option.some.injEq] at hs
      subst hs
      exact ⟨wt', hw, hok⟩
    · cases hs
  | deliver j =>
    simp only [step] at hs
    split at hs
    · split at hs
      · rename_i hg
        exact absurd hg.1 hn
      · cases hs
    · cases hs
  | callWait =>
    simp only [step, Option.some.injEq] at hs
    subst hs
    simp only [List.getElem?_append] at hw
    split at hw
    · exact ⟨wt', hw, hok⟩
    · have hmem := List.getElem?_mem hw
      simp only [List.mem_singleton] at hmem
      subst hmem
      cases hok
  | waitCtxDone j =>
    simp only [step] at hs
    split at hs
    · rename_i wt hj
      simp only [Option.some.injEq] at hs
      subst hs
      simp only [List.getElem?_set] at hw
      split at hw
      · rename_i hij
        subst hij
        split at hw
        · simp only [Option.some.injEq] at hw
          subst hw
          exact ⟨wt, hj, hok⟩
        · cases hw
      · exact ⟨wt', hw, hok⟩
    · cases hs
  | waitTimeout j =>
    simp only [step] at hs
    split at hs
    · rename_i wt hj
      split at hs
      · simp only [Option.some.injEq] at hs
        subst hs
        simp only [List.getElem?_set] at hw
        split at hw
        · split at hw
          · simp only [Option.some.injEq] at hw
            subst hw
            cases hok
          · cases hw
        · exact ⟨wt', hw, hok⟩
      · cases hs
    · cases hs

theorem spent_step (s s' : System) (e : Event) (hs : step s e = some s')
    (hn : s.start ≠ .sending) (hi : s.runImmediately = false) :
    s'.start ≠ .sending ∧ s'.runImmediately = false := by
  cases e with
  | cancel =>
    simp only [step, Option.some.injEq] at hs
    subst hs
    exact ⟨hn, hi⟩
  | tick =>
    simp only [step, Option.some.injEq] at hs
    subst hs
    exact ⟨hn, hi⟩
  | startDone =>
    simp only [step] at hs
    split at hs
    · simp only [Option.some.injEq] at hs
      subst hs
      exact ⟨by simp, hi⟩
    · cases hs
  | startImmediately w =>
    simp only [step] at hs
    split at hs
    · rename_i hg
      rw [hi] at hg
      exact absurd hg.2 (by simp)
    · cases hs
  | startPeriod w =>
    simp only [step] at hs
    split at hs
    · simp only [Option.some.injEq] at hs
      subst hs
      exact ⟨hn, hi⟩
    · cases hs
  | deliver j =>
    simp only [step] at hs
    split at hs
    · split at hs
      · rename_i hg
        exact absurd hg.1 hn
      · cases hs
    · cases hs
  | callWait =>
    simp only [step, Option.some.injEq] at hs
    subst hs
    exact ⟨hn, hi⟩
  | waitCtxDone j =>
    simp only [step] at hs
    split at hs
    · simp only [Option.some.injEq] at hs
      subst hs
      exact ⟨hn, hi⟩
    · cases hs
  | waitTimeout j =>
    simp only [step] at hs
    split at hs
    · split at hs
      · simp only [Option.some.injEq] at hs
        subst hs
        exact ⟨hn, hi⟩
      · cases hs
    · cases hs

theorem spent_run (evs : List Event) (s s' : System) (hr : run s evs = some s')
    (hn : s.start ≠ .sending) (hi : s.runImmediately = false) :
    (s'.start ≠ .sending ∧ s'.runImmediately = false) ∧
      ∀ (i : Nat) (wt' : Waiter), s'.waiters[i]? = some wt' → wt'.pc = .returned none →
        ∃ wt, s.waiters[i]? = some wt ∧ wt.pc = .returned none := by
  induction evs generalizing s with
  | nil =>
    simp only [run, Option.some.injEq] at hr
    subst hr
    exact ⟨⟨hn, hi⟩, fun i wt' hw hok => ⟨wt', hw, hok⟩⟩
  | cons e es ih =>
    simp only [run] at hr
    split at hr
    · rename_i s1 hs1
      obtain ⟨hn1, hi1⟩ := spent_step s s1 e hs1 hn hi
      obtain ⟨hsp, hsucc⟩ := ih s1 hr hn1 hi1
      refine ⟨hsp, ?_⟩
      intro i wt' hw hok
      obtain ⟨wt1, hw1, hok1⟩ := hsucc i wt' hw hok
      exact success_of_step s s1 e hs1 hn i wt1 hw1 hok1
    · cases hr

/-- C6, as the claim states it, fails: after the inaugural cycle has sent the signal
and one call has received it, a further call whose context is not done cannot
receive anything, and returns the timeout error once its context is done. -/
theorem WaitForToken_after_signal_times_out :
    run (initial freshManager) traceSignalConsumed = some stateSignalConsumed ∧
      stateSignalConsumed.sends = 1 ∧ stateSignalConsumed.receives = 1 ∧
      run stateSignalConsumed [.callWait, .deliver 1] = none ∧
      (run stateSignalConsumed [.callWait, .waitCtxDone 1, .waitTimeout 1]).map (fun s => s.waiters)
        = some [{ ctxDone := false, pc := .returned none },
            { ctxDone := true, pc := .returned (some "wachten voor de token duurde te lang") }] := by
  decide

/-- C6, amended. `stopWaitingForToken` carries one send, not a latch. Once that send has
been received, no call of `WaitForToken` that has not already returned success ever
does: no receive is enabled any more, whatever happens later, and such a call returns
the timeout error as soon as its context is done. -/
theorem no_success_after_signal_consumed (m : EnphaseTokenManager) (evs1 evs2 : List Event)
    (s1 s2 : System) (h1 : run (initial m) evs1 = some s1) (hc : s1.receives = 1)
    (h2 : run s1 evs2 = some s2) :
    (∀ (i : Nat) (wt2 : Waiter), s2.waiters[i]? = some wt2 → wt2.pc = .returned none →
        ∃ wt1, s1.waiters[i]? = some wt1 ∧ wt1.pc = .returned none) ∧
      (∀ i, step s2 (.deliver i) = none) ∧
      (∀ (i : Nat) (wt2 : Waiter), s2.waiters[i]? = some wt2 → wt2.ctxDone = false →
        step s2 (.waitTimeout i) = none) ∧
      (∀ (i : Nat) (wt2 : Waiter), s2.waiters[i]? = some wt2 → wt2.pc = .selecting →
        wt2.ctxDone = true →
        ∃ s3, step s2 (.waitTimeout i) = some s3 ∧
          s3.waiters[i]? = some { wt2 with pc := .returned (some waitTimeoutError) }) := by
  obtain ⟨g1, g2, g3, g4, g5⟩ := SendInv_run evs1 (initial m) s1 0 (SendInv_initial m) h1
  have hn : s1.start ≠ .sending := by
    intro hh
    have := g5 hh
    omega
  have hi : s1.runImmediately = false := by
    cases hri : s1.runImmediately with
    | false => rfl
    | true =>
      have := g3 hri
      omega
  obtain ⟨⟨hn2, _⟩, hsucc⟩ := spent_run evs2 s1 s2 h2 hn hi
  refine ⟨hsucc, ?_, ?_, ?_⟩
  · intro i
    simp only [step]
    split
    · rw [if_neg]
      intro hg
      exact hn2 hg.1
    · rfl
  · intro i wt2 hw hctx
    simp [step, hw, hctx]
  · intro i wt2 hw hpc hctx
    have hlt : i < s2.waiters.length := by
      by_contra hge
      rw [List.getElem?_eq_none (by omega)] at hw
      cases hw
    refine ⟨{ s2 with
      waiters := s2.waiters.set i ({ wt2 with pc := .returned (some waitTimeoutError) }) }, ?_, ?_⟩
    · simp [step, hw, hpc, hctx]
    · exact List.getElem?_set_self hlt

theorem no_success_after_signal_consumed_witness :
    run (initial freshManager) traceSignalConsumed = some stateSignalConsumed ∧
      stateSignalConsumed.receives = 1 ∧
      run stateSignalConsumed traceLateCalls = some stateLateCalls ∧
      ((∀ (i : Nat) (wt2 : Waiter), stateLateCalls.waiters[i]? = some wt2 → wt2.pc = .returned none →
          ∃ wt1, stateSignalConsumed.waiters[i]? = some wt1 ∧ wt1.pc = .returned none) ∧
        (∀ i, step stateLateCalls (.deliver i) = none) ∧
        (∀ (i : Nat) (wt2 : Waiter), stateLateCalls.waiters[i]? = some wt2 →
          wt2.ctxDone = false → step stateLateCalls (.waitTimeout i) = none) ∧
        (∀ (i : Nat) (wt2 : Waiter), stateLateCalls.waiters[i]? = some wt2 → wt2.pc = .selecting →
          wt2.ctxDone = true →
          ∃ s3, step stateLateCalls (.waitTimeout i) = some s3 ∧
            s3.waiters[i]? = some { wt2 with pc := .returned (some waitTimeoutError) })) :=
  ⟨by decide, by decide, by decide,
    no_success_after_signal_consumed freshManager traceSignalConsumed traceLateCalls
      stateSignalConsumed stateLateCalls (by decide) (by decide) (by decide)⟩

/-! ## Cancellation -/

theorem start_returned_step (s s' : System) (e : Event) (r : Option String)
    (hs : step s e = some s') (hr : s.start = .returned r) : s'.start = .returned r := by
  cases e <;> simp only [step] at hs <;> (repeat' split at hs) <;> cases hs <;> simp_all

theorem nil_return_step (s s' : System) (e : Event) (hs : step s e = some s')
    (h : s.start = .returned none → s.ctxDone = true) :
    s'.start = .returned none → s'.ctxDone = true := by
  cases e <;> simp only [step] at hs <;> (repeat' split at hs) <;> cases hs <;> simp_all

theorem nil_return_run (evs : List Event) (s s' : System) (hr : run s evs = some s')
    (h : s.start = .returned none → s.ctxDone = true) :
    s'.start = .returned none → s'.ctxDone = true := by
  induction evs generalizing s with
  | nil =>
    simp only [run, Option.some.injEq] at hr
    subst hr
    exact h
  | cons e es ih =>
    simp only [run] at hr
    split at hr
    · rename_i s1 hs1
      exact ih s1 hr (nil_return_step s s1 e hs1 h)
    · cases hr

/-- C7, as the claim states it, fails. When the context is cancelled before the first
`select`, the `select` may take the immediate-run case; the cycle then fails on the
cancelled context and `Start` returns that error, not nil. And while `Start` stands
at its send with no call left to receive, the cancellation case cannot be taken. -/
theorem Start_cancelled_returns_error :
    run (initial freshManager) traceCancelledFirst = some stateCancelledFirst ∧
      stateCancelledFirst.ctxDone = true ∧
      stateCancelledFirst.start ≠ .returned none ∧
      (run (initial freshManager) [.startImmediately worldOk, .cancel]).map (fun s => s.start)
        = some .sending ∧
      run (initial freshManager) [.startImmediately worldOk, .cancel, .startDone] = none := by
  decide

/-! ## Executions in which nothing is sent -/

theorem run_append (a b : List Event) (s : System) :
    run s (a ++ b) = (run s a).bind fun s1 => run s1 b := by
  induction a generalizing s with
  | nil => rfl
  | cons e es ih =>
    simp only [List.cons_append, run]
    cases step s e with
    | none => rfl
    | some s1 => exact ih s1

theorem Quiet_step (m0 : EnphaseTokenManager) (s s' : System) (e : Event) (hq : Quiet m0 s)
    (he : e.isCycle = false ∨ ∃ r, s.start = .returned r) (hs : step s e = some s') :
    Quiet m0 s' := by
  obtain ⟨q1, q2, q3, q4⟩ := hq
  cases e with
  | cancel =>
    simp only [step, Option.some.injEq] at hs
    subst hs
    exact ⟨q1, q2, q3, q4⟩
  | tick =>
    simp only [step, Option.some.injEq] at hs
    subst hs
    exact ⟨q1, q2, q3, q4⟩
  | startDone =>
    simp only [step] at hs
    split at hs
    · simp only [Option.some.injEq] at hs
      subst hs
      exact ⟨q1, q2, by simp, q4⟩
    · cases hs
  | startImmediately w =>
    simp only [step] at hs
    split at hs
    · rename_i hg
      rcases he with he | ⟨r, he⟩
      · simp [Event.isCycle] at he
      · rw [he] at hg
        exact absurd hg.1 (by simp)
    · cases hs
  | startPeriod w =>
    simp only [step] at hs
    split at hs
    · rename_i hg
      rcases he with he | ⟨r, he⟩
      · simp [Event.isCycle] at he
      · rw [he] at hg
        exact absurd hg.1 (by simp)
    · cases hs
  | deliver j =>
    simp only [step] at hs
    split at hs
    · split at hs
      · rename_i hg
        exact absurd hg.1 q3
      · cases hs
    · cases hs
  | callWait =>
    simp only [step, Option.some.injEq] at hs
    subst hs
    refine ⟨q1, q2, q3, ?_⟩
    intro wt hwt
    rcases List.mem_append.1 hwt with h | h
    · exact q4 wt h
    · simp only [List.mem_singleton] at h
      subst h
      exact Or.inl rfl
  | waitCtxDone j =>
    simp only [step] at hs
    split at hs
    · rename_i wt0 hj
      simp only [Option.some.injEq] at hs
      subst hs
      refine ⟨q1, q2, q3, ?_⟩
      intro wt hwt
      rcases List.mem_or_eq_of_mem_set hwt with h | h
      · exact q4 wt h
      · subst h
        exact q4 wt0 (List.getElem?_mem hj)
    · cases hs
  | waitTimeout j =>
    simp only [step] at hs
    split at hs
    · split at hs
      · simp only [Option.some.injEq] at hs
        subst hs
        refine ⟨q1, q2, q3, ?_⟩
        intro wt hwt
        rcases List.mem_or_eq_of_mem_set hwt with h | h
        · exact q4 wt h
        · subst h
          exact Or.inr rfl
      · cases hs
    · cases hs

theorem Quiet_run_before (m0 : EnphaseTokenManager) (evs : List Event) (s s' : System)
    (hq : Quiet m0 s) (he : ∀ ev ∈ evs, ev.isCycle = false) (hr : run s evs = some s') :
    Quiet m0 s' := by
  induction evs generalizing s with
  | nil =>
    simp only [run, Option.some.injEq] at hr
    subst hr
    exact hq
  | cons e es ih =>
    simp only [run] at hr
    split at hr
    · rename_i s1 hs1
      exact ih s1 (Quiet_step m0 s s1 e hq (Or.inl (he e (List.mem_cons_self e es))) hs1)
        (fun ev hev => he ev (List.mem_cons_of_mem e hev)) hr
    · cases hr

theorem Quiet_run_after (m0 : EnphaseTokenManager) (evs : List Event) (s s' : System)
    (r : Option String) (hq : Quiet m0 s) (hret : s.start = .returned r)
    (hr : run s evs = some s') :
    Quiet m0 s' ∧ s'.start = .returned r := by
  induction evs generalizing s with
  | nil =>
    simp only [run, Option.some.injEq] at hr
    subst hr
    exact ⟨hq, hret⟩
  | cons e es ih =>
    simp only [run] at hr
    split at hr
    · rename_i s1 hs1
      exact ih s1 (Quiet_step m0 s s1 e hq (Or.inr ⟨r, hret⟩) hs1)
        (start_returned_step s s1 e r hs1 hret) hr
    · cases hr

/-! ## The credential behind a successful WaitForToken -/

theorem Do_withToken (m : EnphaseTokenManager) (acc : Option String) (w : World) :
    (Do (withToken m acc) w).2 = (Do m w).2 ∧
      ((Do m w).2 = none → (Do (withToken m acc) w).1 = (Do m w).1) := by
  cases acc with
  | none => exact ⟨rfl, fun _ => rfl⟩
  | some t => exact Do_token_irrelevant m t w

theorem Do_of_succeeds (m : EnphaseTokenManager) (w : World) (rb : String)
    (h : CycleSucceeds m w rb) : Do m w = ({ m with token := rb }, none) := by
  obtain ⟨lb, p, b, h1, h2, h3, h5, h6, h7⟩ := h
  have hs : FetchSessionID m w = .ok p.SessionID :=
    (FetchSessionID_ok_iff m w _).2 ⟨lb, p, h1, h2, h3, rfl⟩
  have ht : FetchToken m w p.SessionID = .ok rb :=
    (FetchToken_ok_iff m w _ rb).2 ⟨b, h5, h6, h7⟩
  simp [Do, hs, ht]

theorem CycleSucceeds_withToken (m : EnphaseTokenManager) (acc : Option String) (w : World)
    (rb : String) : CycleSucceeds (withToken m acc) w rb ↔ CycleSucceeds m w rb := by
  cases acc <;> exact Iff.rfl

theorem cycle_outcome (m : EnphaseTokenManager) (acc : Option String) (w : World) :
    (∃ rb, CycleSucceeds m w rb ∧ (Do (withToken m acc) w).2 = none ∧
        (Do (withToken m acc) w).1 = withToken m (some rb)) ∨
      ((¬ ∃ rb, CycleSucceeds m w rb) ∧ (Do (withToken m acc) w).2 ≠ none ∧
        (Do (withToken m acc) w).1 = withToken m acc) := by
  by_cases h : ∃ rb, CycleSucceeds m w rb
  · obtain ⟨rb, hrb⟩ := h
    have hd := Do_of_succeeds (withToken m acc) w rb ((CycleSucceeds_withToken m acc w rb).2 hrb)
    refine Or.inl ⟨rb, hrb, by rw [hd], ?_⟩
    rw [hd]
    cases acc <;> rfl
  · have hne : (Do (withToken m acc) w).2 ≠ none := by
      intro hn
      obtain ⟨rb, hrb⟩ := (Do_ok_iff _ w).1 hn
      exact h ⟨rb, (CycleSucceeds_withToken m acc w rb).1 hrb⟩
    exact Or.inr ⟨h, hne, Do_error_unchanged _ w hne⟩

theorem step_manager (s s' : System) (e : Event) (hs : step s e = some s') :
    s'.m = match e.cycleWorld with
      | some w => (Do s.m w).1
      | none => s.m := by
  cases e <;> simp only [step] at hs <;> (repeat' split at hs) <;> cases hs <;> rfl

theorem step_sends (s s' : System) (e : Event) (hs : step s e = some s') :
    s'.sends = s.sends ∨ ∃ w, e = .startImmediately w ∧ (Do s.m w).2 = none := by
  cases e with
  | startImmediately w =>
    simp only [step] at hs
    split at hs
    · split at hs
      · cases hs
        exact Or.inl rfl
      · rename_i hnone
        exact Or.inr ⟨w, rfl, hnone⟩
    · cases hs
  | cancel => simp only [step] at hs; cases hs; exact Or.inl rfl
  | tick => simp only [step] at hs; cases hs; exact Or.inl rfl
  | callWait => simp only [step] at hs; cases hs; exact Or.inl rfl
  | startDone =>
    simp only [step] at hs
    (repeat' split at hs) <;> (cases hs; try exact Or.inl rfl)
  | startPeriod w =>
    simp only [step] at hs
    (repeat' split at hs) <;> (cases hs; try exact Or.inl rfl)
  | deliver i =>
    simp only [step] at hs
    (repeat' split at hs) <;> (cases hs; try exact Or.inl rfl)
  | waitCtxDone i =>
    simp only [step] at hs
    (repeat' split at hs) <;> (cases hs; try exact Or.inl rfl)
  | waitTimeout i =>
    simp only [step] at hs
    (repeat' split at hs) <;> (cases hs; try exact Or.inl rfl)

theorem manager_step (m : EnphaseTokenManager) (s s' : System) (e : Event)
    (h : ∃ acc, s.m = withToken m acc) (hs : step s e = some s') :
    ∃ acc, s'.m = withToken m acc := by
  obtain ⟨acc, hacc⟩ := h
  have hm := step_manager s s' e hs
  cases hw : e.cycleWorld with
  | none =>
    rw [hw] at hm
    exact ⟨acc, by rw [hm, hacc]⟩
  | some w =>
    rw [hw] at hm
    simp only [hacc] at hm
    rcases cycle_outcome m acc w with ⟨rb, _, _, h3⟩ | ⟨_, _, h3⟩
    · exact ⟨some rb, by rw [hm, h3]⟩
    · exact ⟨acc, by rw [hm, h3]⟩

theorem manager_run (m : EnphaseTokenManager) (evs : List Event) (s s' : System)
    (h : ∃ acc, s.m = withToken m acc) (hr : run s evs = some s') :
    ∃ acc, s'.m = withToken m acc := by
  induction evs generalizing s with
  | nil =>
    simp only [run, Option.some.injEq] at hr
    subst hr
    exact h
  | cons e es ih =>
    simp only [run] at hr
    split at hr
    · rename_i s1 hs1
      exact ih s1 (manager_step m s s1 e h hs1) hr
    · cases hr

theorem AllFail_concat (m : EnphaseTokenManager) (es : List Event) (e : Event)
    (h : AllFail m es) (he : ∀ w, e.cycleWorld = some w → ¬ ∃ rb, CycleSucceeds m w rb) :
    AllFail m (es ++ [e]) := by
  intro e' hmem w hw
  rcases List.mem_append.1 hmem with hin | hin
  · exact h e' hin w hw
  · simp only [List.mem_singleton] at hin
    subst hin
    exact he w hw

theorem LastBody_concat_fail (m : EnphaseTokenManager) (es : List Event) (e : Event)
    (rb : String) (h : LastBody m es rb)
    (he : ∀ w, e.cycleWorld = some w → ¬ ∃ rb, CycleSucceeds m w rb) :
    LastBody m (es ++ [e]) rb := by
  obtain ⟨mid, e0, rest, w, hes, hw, hok, hfail⟩ := h
  exact ⟨mid, e0, rest ++ [e], w, by rw [hes]; simp, hw, hok, AllFail_concat m rest e hfail he⟩

theorem LastBody_concat_ok (m : EnphaseTokenManager) (es : List Event) (e : Event)
    (w : World) (rb : String) (hw : e.cycleWorld = some w) (hok : CycleSucceeds m w rb) :
    LastBody m (es ++ [e]) rb :=
  ⟨es, e, [], w, rfl, hw, hok, fun _ hmem => absurd hmem (List.not_mem_nil _)⟩

theorem CredInv_step (m : EnphaseTokenManager) (done : List Event) (e : Event)
    (s s' : System) (h : CredInv m done s) (hs : step s e = some s') :
    CredInv m (done ++ [e]) s' := by
  obtain ⟨⟨acc, hacc⟩, hsent⟩ := h
  refine ⟨manager_step m s s' e ⟨acc, hacc⟩ hs, ?_⟩
  intro h1
  have hm := step_manager s s' e hs
  have hsd := step_sends s s' e hs
  cases hw : e.cycleWorld with
  | none =>
    rw [hw] at hm
    have hsame : s'.sends = s.sends := by
      rcases hsd with hsd | ⟨w, he, _⟩
      · exact hsd
      · subst he
        simp [Event.cycleWorld] at hw
    rw [hsame] at h1
    obtain ⟨pre, w0, post, hd, hok0, rb, hlast, hget⟩ := hsent h1
    refine ⟨pre, w0, post ++ [e], by rw [hd]; simp, hok0, rb, ?_, by rw [hm]; exact hget⟩
    exact LastBody_concat_fail m _ e rb hlast (fun w hw' => by rw [hw] at hw'; cases hw')
  | some w =>
    rw [hw] at hm
    simp only [hacc] at hm
    rw [hacc] at hsd
    rcases cycle_outcome m acc w with ⟨rb, hrb, _, h3⟩ | ⟨hno, hne, h3⟩
    · have hget : GetToken s'.m = rb := by
        rw [hm, h3]
        rfl
      by_cases hold : 1 ≤ s.sends
      · obtain ⟨pre, w0, post, hd, hok0, _, _, _⟩ := hsent hold
        exact ⟨pre, w0, post ++ [e], by rw [hd]; simp, hok0, rb,
          LastBody_concat_ok m (Event.startImmediately w0 :: post) e w rb hw hrb, hget⟩
      · rcases hsd with hsd | ⟨w1, he, _⟩
        · omega
        · subst he
          simp only [Event.cycleWorld, Option.some.injEq] at hw
          subst hw
          exact ⟨done, w1, [], rfl, ⟨rb, hrb⟩, rb,
            LastBody_concat_ok m [] _ w1 rb rfl hrb, hget⟩
    · have hsame : s'.sends = s.sends := by
        rcases hsd with hsd | ⟨w1, he, hnone⟩
        · exact hsd
        · subst he
          simp only [Event.cycleWorld, Option.some.injEq] at hw
          subst hw
          exact absurd hnone hne
      rw [hsame] at h1
      obtain ⟨pre, w0, post, hd, hok0, rb, hlast, hget⟩ := hsent h1
      refine ⟨pre, w0, post ++ [e], by rw [hd]; simp, hok0, rb, ?_, ?_⟩
      · exact LastBody_concat_fail m _ e rb hlast
          (fun w' hw' => by rw [hw] at hw'; cases hw'; exact hno)
      · rw [hm, h3, ← hacc]
        exact hget

theorem CredInv_run (m : EnphaseTokenManager) (evs done : List Event) (s s' : System)
    (h : CredInv m done s) (hr : run s evs = some s') : CredInv m (done ++ evs) s' := by
  induction evs generalizing s done with
  | nil =>
    simp only [run, Option.some.injEq] at hr
    subst hr
    simpa using h
  | cons e es ih =>
    simp only [run] at hr
    split at hr
    · rename_i s1 hs1
      have := ih (done ++ [e]) s1 (CredInv_step m done e s s1 h hs1) hr
      simpa using this
    · cases hr

theorem received_step (s s' : System) (e : Event) (hs : step s e = some s')
    (h : ∀ wt ∈ s.waiters, wt.pc = .returned none → 1 ≤ s.receives) :
    ∀ wt ∈ s'.waiters, wt.pc = .returned none → 1 ≤ s'.receives := by
  cases e with
  | cancel => simp only [step] at hs; cases hs; exact h
  | tick => simp only [step] at hs; cases hs; exact h
  | startDone => simp only [step] at hs; (repeat' split at hs) <;> (cases hs; try exact h)
  | startImmediately w =>
    simp only [step] at hs
    (repeat' split at hs) <;> cases hs <;> exact h
  | startPeriod w => simp only [step] at hs; (repeat' split at hs) <;> (cases hs; try exact h)
  | deliver i =>
    simp only [step] at hs
    split at hs
    · split at hs
      · cases hs
        intro wt _ _
        show 1 ≤ s.receives + 1
        omega
      · cases hs
    · cases hs
  | callWait =>
    simp only [step] at hs
    cases hs
    intro wt hwt hok
    rcases List.mem_append.1 hwt with hin | hin
    · exact h wt hin hok
    · simp only [List.mem_singleton] at hin
      subst hin
      cases hok
  | waitCtxDone i =>
    simp only [step] at hs
    split at hs
    · rename_i wt0 hj
      cases hs
      intro wt hwt hok
      rcases List.mem_or_eq_of_mem_set hwt with hin | hin
      · exact h wt hin hok
      · subst hin
        exact h wt0 (List.getElem?_mem hj) hok
    · cases hs
  | waitTimeout i =>
    simp only [step] at hs
    split at hs
    · split at hs
      · cases hs
        intro wt hwt hok
        rcases List.mem_or_eq_of_mem_set hwt with hin | hin
        · exact h wt hin hok
        · subst hin
          cases hok
      · cases hs
    · cases hs

theorem received_run (evs : List Event) (s s' : System) (hr : run s evs = some s')
    (h : ∀ wt ∈ s.waiters, wt.pc = .returned none → 1 ≤ s.receives) :
    ∀ wt ∈ s'.waiters, wt.pc = .returned none → 1 ≤ s'.receives := by
  induction evs generalizing s with
  | nil =>
    simp only [run, Option.some.injEq] at hr
    subst hr
    exact h
  | cons e es ih =>
    simp only [run] at hr
    split at hr
    · rename_i s1 hs1
      exact ih s1 hr (received_step s s1 e hs1 h)
    · cases hr

/-- C8, as the claim states it, fails in its last clause: a token endpoint answering
status 200 with an empty body makes the inaugural cycle succeed and store the empty
string, so `WaitForToken` returns success while `GetToken` returns the same value as
before any cycle. -/
theorem WaitForToken_success_with_empty_token :
    (Do freshManager worldEmptyToken).2 = none ∧
      (run (initial freshManager) traceEmptyToken).map (fun s => (s.waiters, GetToken s.m))
        = some ([{ ctxDone := false, pc := .returned none }], "") ∧
      GetToken (initial freshManager).m = "" := by
  decide

/-- C8, amended. Whenever a `WaitForToken` call has returned success, the execution so
far contains the inaugural cycle and both remote calls of that cycle succeeded; and
`GetToken` returns, unchanged, the body the token endpoint answered with in the most
recent successful cycle among the inaugural one and those after it. That body is
stored as received, empty or not. -/
theorem WaitForToken_success_has_credential (m : EnphaseTokenManager) (evs : List Event)
    (s : System) (hr : run (initial m) evs = some s)
    (hok : ∃ wt ∈ s.waiters, wt.pc = .returned none) :
    ∃ pre w0 post, evs = pre ++ Event.startImmediately w0 :: post ∧
      (∃ rb0, CycleSucceeds m w0 rb0) ∧
      ∃ mid e rest w rb, Event.startImmediately w0 :: post = mid ++ e :: rest ∧
        e.cycleWorld = some w ∧ CycleSucceeds m w rb ∧
        (∀ e' ∈ rest, ∀ w', e'.cycleWorld = some w' → ¬ ∃ rb', CycleSucceeds m w' rb') ∧
        GetToken s.m = rb := by
  obtain ⟨wt, hwt, hpc⟩ := hok
  have hrec : 1 ≤ s.receives :=
    received_run evs (initial m) s hr (by simp [initial]) wt hwt hpc
  obtain ⟨_, _, _, i4, _⟩ := SendInv_run evs (initial m) s 0 (SendInv_initial m) hr
  have hinv : CredInv m ([] ++ evs) s :=
    CredInv_run m evs [] (initial m) s ⟨⟨none, rfl⟩, by simp [initial]⟩ hr
  obtain ⟨pre, w0, post, hd, hok0, rb, ⟨mid, e, rest, w, hes, hw, hsucc, hfail⟩, hget⟩ :=
    hinv.2 (by omega)
  simp only [List.nil_append] at hd
  exact ⟨pre, w0, post, hd, hok0, mid, e, rest, w, rb, hes, hw, hsucc, hfail, hget⟩

theorem worldRenewed_succeeds : CycleSucceeds freshManager worldRenewed "tok-456" :=
  ⟨"\x7b\"session_id\":\"abc\"\x7d", { SessionID := "abc" },
    "\x7b\"session_id\":\"abc\",\"serial_num\":\"s\",\"username\":\"u\"\x7d",
    by decide, by decide, by decide, by decide, by decide, by decide⟩

theorem WaitForToken_success_has_credential_witness :
    run (initial freshManager) traceRenewed = some stateRenewed ∧
      (∃ wt ∈ stateRenewed.waiters, wt.pc = .returned none) ∧
      CycleSucceeds freshManager worldRenewed "tok-456" ∧
      GetToken stateRenewed.m = "tok-456" ∧
      ∃ pre w0 post, traceRenewed = pre ++ Event.startImmediately w0 :: post ∧
        (∃ rb0, CycleSucceeds freshManager w0 rb0) ∧
        ∃ mid e rest w rb, Event.startImmediately w0 :: post = mid ++ e :: rest ∧
          e.cycleWorld = some w ∧ CycleSucceeds freshManager w rb ∧
          (∀ e' ∈ rest, ∀ w', e'.cycleWorld = some w' →
            ¬ ∃ rb', CycleSucceeds freshManager w' rb') ∧
          GetToken stateRenewed.m = rb :=
  ⟨by decide, ⟨_, List.mem_singleton.2 rfl, rfl⟩, worldRenewed_succeeds, by decide,
    WaitForToken_success_has_credential freshManager traceRenewed stateRenewed (by decide)
      ⟨_, List.mem_singleton.2 rfl, rfl⟩⟩

/-! ## A failed inaugural cycle -/

theorem waiter_form_step (s s' : System) (e : Event) (hs : step s e = some s')
    (h : ∀ wt ∈ s.waiters, wt.pc = .selecting ∨ wt.pc = .returned none ∨
      wt.pc = .returned (some waitTimeoutError)) :
    ∀ wt ∈ s'.waiters, wt.pc = .selecting ∨ wt.pc = .returned none ∨
      wt.pc = .returned (some waitTimeoutError) := by
  cases e with
  | cancel => simp only [step] at hs; cases hs; exact h
  | tick => simp only [step] at hs; cases hs; exact h
  | startDone => simp only [step] at hs; (repeat' split at hs) <;> (cases hs; try exact h)
  | startImmediately w =>
    simp only [step] at hs
    (repeat' split at hs) <;> cases hs <;> exact h
  | startPeriod w => simp only [step] at hs; (repeat' split at hs) <;> (cases hs; try exact h)
  | deliver i =>
    simp only [step] at hs
    split at hs
    · split at hs
      · cases hs
        intro wt hwt
        rcases List.mem_or_eq_of_mem_set hwt with hin | hin
        · exact h wt hin
        · subst hin
          exact Or.inr (Or.inl rfl)
      · cases hs
    · cases hs
  | callWait =>
    simp only [step] at hs
    cases hs
    intro wt hwt
    rcases List.mem_append.1 hwt with hin | hin
    · exact h wt hin
    · simp only [List.mem_singleton] at hin
      subst hin
      exact Or.inl rfl
  | waitCtxDone i =>
    simp only [step] at hs
    split at hs
    · rename_i wt0 hj
      cases hs
      intro wt hwt
      rcases List.mem_or_eq_of_mem_set hwt with hin | hin
      · exact h wt hin
      · subst hin
        exact h wt0 (List.getElem?_mem hj)
    · cases hs
  | waitTimeout i =>
    simp only [step] at hs
    split at hs
    · split at hs
      · cases hs
        intro wt hwt
        rcases List.mem_or_eq_of_mem_set hwt with hin | hin
        · exact h wt hin
        · subst hin
          exact Or.inr (Or.inr rfl)
      · cases hs
    · cases hs

theorem waiter_form_run (evs : List Event) (s s' : System) (hr : run s evs = some s')
    (h : ∀ wt ∈ s.waiters, wt.pc = .selecting ∨ wt.pc = .returned none ∨
      wt.pc = .returned (some waitTimeoutError)) :
    ∀ wt ∈ s'.waiters, wt.pc = .selecting ∨ wt.pc = .returned none ∨
      wt.pc = .returned (some waitTimeoutError) := by
  induction evs generalizing s with
  | nil =>
    simp only [run, Option.some.injEq] at hr
    subst hr
    exact h
  | cons e es ih =>
    simp only [run] at hr
    split at hr
    · rename_i s1 hs1
      exact ih s1 hr (waiter_form_step s s1 e hs1 h)
    · cases hr

/-- C3. If the inaugural refresh cycle (the immediate-run case) fails, `Start` returns
the error of that cycle and stays returned, the send of the ready signal is never
executed, and every `WaitForToken` call, made before or after, has either not
returned or returned the timeout error: none ever returns success. The stored
credential stays the empty string, the inaugural cycle being the first cycle run. -/
theorem failed_inaugural_cycle_never_signals (username password serial : String)
    (before after : List Event) (w : World) (err : String) (s : System)
    (hfail : (Do (NewManager username password serial) w).2 = some err)
    (hr : run (initial (NewManager username password serial))
      (before ++ Event.startImmediately w :: after) = some s) :
    s.start = .returned (some err) ∧ s.sends = 0 ∧ s.receives = 0 ∧
      (∀ wt ∈ s.waiters, wt.pc = .selecting ∨ wt.pc = .returned (some waitTimeoutError)) ∧
      ((∀ ev ∈ before, ev.isCycle = false) → GetToken s.m = "") := by
  have hinv := SendInv_run _ _ s 0 (SendInv_initial (NewManager username password serial)) hr
  rw [run_append] at hr
  cases h1 : run (initial (NewManager username password serial)) before with
  | none => simp [h1] at hr
  | some s1 =>
    simp only [h1, Option.some_bind, run] at hr
    cases h2 : step s1 (Event.startImmediately w) with
    | none => simp [h2] at hr
    | some s2 =>
      simp only [h2] at hr
      have hen : s1.start = .selecting ∧ s1.runImmediately = true := by
        simp only [step] at h2
        split at h2
        · assumption
        · cases h2
      obtain ⟨acc, hacc⟩ : ∃ acc, s1.m = withToken (NewManager username password serial) acc :=
        manager_run _ before _ s1 ⟨none, rfl⟩ h1
      have hd : (Do s1.m w).2 = some err := by
        rw [hacc, (Do_withToken _ acc w).1]
        exact hfail
      have hs2 : s2 = { s1 with runImmediately := false, m := (Do s1.m w).1
                                start := .returned (some err) } := by
        simp only [step, hen.1, hen.2, and_self, if_true, hd, Option.some.injEq] at h2
        exact h2.symm
      have hunch : (Do s1.m w).1 = s1.m := Do_error_unchanged s1.m w (by simp [hd])
      obtain ⟨_, j2, j3, j4, _⟩ :=
        SendInv_run before _ s1 0 (SendInv_initial (NewManager username password serial)) h1
      have hc0 : 0 + List.countP Event.isImmediately before = 0 := j3 hen.2
      have hsends : s1.sends = 0 := by omega
      have hrecv : s1.receives = 0 := by omega
      have hform := waiter_form_run before _ s1 h1 (by simp [initial])
      have hrec := received_run before _ s1 h1 (by simp [initial])
      have hw1 : ∀ wt ∈ s1.waiters,
          wt.pc = .selecting ∨ wt.pc = .returned (some waitTimeoutError) := by
        intro wt hwt
        rcases hform wt hwt with hsel | hnil | hto
        · exact Or.inl hsel
        · have := hrec wt hwt hnil
          omega
        · exact Or.inr hto
      have hq2 : Quiet s1.m s2 := by
        subst hs2
        exact ⟨hunch, hsends, by simp, hw1⟩
      have hret2 : s2.start = .returned (some err) := by
        subst hs2
        rfl
      obtain ⟨⟨q1, q2, _, q4⟩, hret⟩ := Quiet_run_after _ after s2 s (some err) hq2 hret2 hr
      obtain ⟨_, _, _, i4, _⟩ := hinv
      refine ⟨hret, q2, by omega, q4, ?_⟩
      intro hfirst
      have hq1 : Quiet (NewManager username password serial) s1 :=
        Quiet_run_before _ before _ s1 ⟨rfl, rfl, by simp [initial], by simp [initial]⟩ hfirst h1
      rw [q1, hq1.1]
      rfl

theorem failed_inaugural_cycle_never_signals_witness :
    run (initial (NewManager "u" "p" "s")) traceInauguralFails = some stateInauguralFails ∧
      (∀ ev ∈ [Event.callWait, Event.waitCtxDone 0, Event.waitTimeout 0], ev.isCycle = false) ∧
      stateInauguralFails.start = .returned (some
        "kon geen token halen: onverwachte status 500 voor http://entrez.enphaseenergy.com/tokens: \x7b\"session_id\":\"abc\",\"serial_num\":\"s\",\"username\":\"u\"\x7d") ∧
      stateInauguralFails.sends = 0 ∧ stateInauguralFails.receives = 0 ∧
      (∀ wt ∈ stateInauguralFails.waiters,
        wt.pc = .selecting ∨ wt.pc = .returned (some waitTimeoutError)) ∧
      GetToken stateInauguralFails.m = "" :=
  have h := failed_inaugural_cycle_never_signals "u" "p" "s"
    [Event.callWait, Event.waitCtxDone 0, Event.waitTimeout 0] [Event.callWait]
    worldTokenRefused _ stateInauguralFails (by decide) (by decide)
  ⟨by decide, by decide, h.1, h.2.1, h.2.2.1, h.2.2.2.1, h.2.2.2.2 (by decide)⟩

/-! ## Cancellation in the steady state -/

theorem step_start_error (s s' : System) (e : Event) (err : String)
    (hs : step s e = some s') (h : s'.start = .returned (some err)) :
    s.start = .returned (some err) ∨
      ∃ w, e = .startImmediately w ∧ (Do s.m w).2 = some err := by
  cases e with
  | startImmediately w =>
    simp only [step] at hs
    split at hs
    · split at hs
      · rename_i err' herr
        cases hs
        simp only [StartPc.returned.injEq, Option.some.injEq] at h
        subst h
        exact Or.inr ⟨w, rfl, herr⟩
      · cases hs
        cases h
    · cases hs
  | cancel => simp only [step] at hs; cases hs; exact Or.inl h
  | tick => simp only [step] at hs; cases hs; exact Or.inl h
  | callWait => simp only [step] at hs; cases hs; exact Or.inl h
  | startDone =>
    simp only [step] at hs
    split at hs
    · cases hs
      cases h
    · cases hs
  | startPeriod w =>
    simp only [step] at hs
    (repeat' split at hs) <;> (cases hs; try exact Or.inl h)
  | deliver i =>
    simp only [step] at hs
    split at hs
    · split at hs
      · cases hs
        cases h
      · cases hs
    · cases hs
  | waitCtxDone i =>
    simp only [step] at hs
    (repeat' split at hs) <;> (cases hs; try exact Or.inl h)
  | waitTimeout i =>
    simp only [step] at hs
    (repeat' split at hs) <;> (cases hs; try exact Or.inl h)

theorem ErrInv_step (m : EnphaseTokenManager) (done : List Event) (e : Event)
    (s s' : System) (h : ErrInv m done s) (hs : step s e = some s') :
    ErrInv m (done ++ [e]) s' := by
  obtain ⟨⟨acc, hacc⟩, herr⟩ := h
  refine ⟨manager_step m s s' e ⟨acc, hacc⟩ hs, ?_⟩
  intro err hret
  rcases step_start_error s s' e err hs hret with hold | ⟨w, he, hd⟩
  · obtain ⟨pre, w, post, hdone, hdo⟩ := herr err hold
    exact ⟨pre, w, post ++ [e], by rw [hdone]; simp, hdo⟩
  · subst he
    rw [hacc, (Do_withToken m acc w).1] at hd
    exact ⟨done, w, [], rfl, hd⟩

theorem ErrInv_run (m : EnphaseTokenManager) (evs done : List Event) (s s' : System)
    (h : ErrInv m done s) (hr : run s evs = some s') : ErrInv m (done ++ evs) s' := by
  induction evs generalizing s done with
  | nil =>
    simp only [run, Option.some.injEq] at hr
    subst hr
    simpa using h
  | cons e es ih =>
    simp only [run] at hr
    split at hr
    · rename_i s1 hs1
      have := ih (done ++ [e]) s1 (ErrInv_step m done e s s1 h hs1) hr
      simpa using this
    · cases hr

theorem Steady_step (s s' : System) (e : Event) (h : Steady s) (hs : step s e = some s') :
    Steady s' := by
  obtain ⟨h1, h2, h3⟩ := h
  unfold Steady
  cases e <;> simp only [step] at hs <;> (repeat' split at hs) <;> cases hs <;> simp_all

theorem Steady_run (evs : List Event) (s s' : System) (h : Steady s)
    (hr : run s evs = some s') : Steady s' := by
  induction evs generalizing s with
  | nil =>
    simp only [run, Option.some.injEq] at hr
    subst hr
    exact h
  | cons e es ih =>
    simp only [run] at hr
    split at hr
    · rename_i s1 hs1
      exact ih s1 (Steady_step s s1 e h hs1) hr
    · cases hr

/-- C7, amended. In every execution: whenever the context is cancelled while `Start`
stands at its `select`, the cancellation case is enabled, and taking it makes `Start`
return nil and leaves the manager untouched; `Start` returns nil only on a cancelled
context; `Start` returns an error only as the error of its immediate-run cycle; once
the immediate run is spent and `Start` stands at its `select`, whatever happens
later, cancellation included, `Start` is still in its loop or has returned nil on a
cancelled context, never an error; and once `Start` has returned, it stays returned
with the same result. -/
theorem cancellation_case_returns_nil (m : EnphaseTokenManager) (evs : List Event)
    (s : System) (hr : run (initial m) evs = some s) :
    (s.start = .selecting → s.ctxDone = true →
        ∃ s', step s .startDone = some s' ∧ s'.start = .returned none ∧ s'.m = s.m) ∧
      (s.start = .returned none → s.ctxDone = true) ∧
      (∀ err, s.start = .returned (some err) → ∃ pre w post,
        evs = pre ++ Event.startImmediately w :: post ∧ (Do m w).2 = some err) ∧
      (s.start = .selecting → s.runImmediately = false → ∀ evs' s', run s evs' = some s' →
        s'.start = .selecting ∨ (s'.start = .returned none ∧ s'.ctxDone = true)) ∧
      (∀ r e s', s.start = .returned r → step s e = some s' → s'.start = .returned r) := by
  refine ⟨?_, ?_, ?_, ?_, ?_⟩
  · intro hsel hctx
    exact ⟨{ s with start := .returned none }, by simp [step, hsel, hctx], rfl, rfl⟩
  · exact nil_return_run evs (initial m) s hr (by simp [initial])
  · have hinv : ErrInv m ([] ++ evs) s :=
      ErrInv_run m evs [] (initial m) s ⟨⟨none, rfl⟩, by simp [initial]⟩ hr
    simp only [List.nil_append] at hinv
    exact hinv.2
  · intro hsel hspent evs' s' hr'
    have hst : Steady s := ⟨hspent, Or.inl hsel, by simp [hsel]⟩
    obtain ⟨_, h2, h3⟩ := Steady_run evs' s s' hst hr'
    rcases h2 with h2 | h2
    · exact Or.inl h2
    · exact Or.inr ⟨h2, h3 h2⟩
  · intro r e s' hret hs
    exact start_returned_step s s' e r hs hret

theorem cancellation_case_returns_nil_witness :
    run (initial freshManager) (traceSignalConsumed ++ [.cancel]) = some stateCancelledLater ∧
      stateCancelledLater.start = .selecting ∧ stateCancelledLater.ctxDone = true ∧
      stateCancelledLater.runImmediately = false ∧
      run stateCancelledLater [.tick, .startPeriod worldTokenRefused, .startDone]
        = some stateCancelledReturned ∧
      (∃ s', step stateCancelledLater .startDone = some s' ∧ s'.start = .returned none ∧
        s'.m = stateCancelledLater.m) ∧
      (stateCancelledReturned.start = .selecting ∨
        (stateCancelledReturned.start = .returned none ∧
          stateCancelledReturned.ctxDone = true)) :=
  have h := cancellation_case_returns_nil freshManager (traceSignalConsumed ++ [.cancel])
    stateCancelledLater (by decide)
  ⟨by decide, by decide, by decide, by decide, by decide, h.1 (by decide) (by decide),
    h.2.2.2.1 (by decide) (by decide) _ _ (by decide :
      run stateCancelledLater [.tick, .startPeriod worldTokenRefused, .startDone]
        = some stateCancelledReturned)⟩

end Enphase
